import Mathlib

/-!
Verification of the MLearning guarded patch-application engine
(`openaiClient.js`): signature hasher, auto-apply policy gate, deterministic
fixer, positional semantic diff, marker-zone insertion, per-file lock, backup
manager and the two orchestrated HTTP operations `/apply-fix` and
`/apply-proposal`.

Texts are modelled as `String` (a wrapper around `List Char`); the JavaScript
string primitives used by the source (`trim`, `toLowerCase`, `split("\n")`,
`indexOf`, `slice`, global literal `replace`) are embedded as character-list
functions with the same semantics.  The SHA-256 digest from `crypto` is an
external library call and is modelled as an abstract function parameter
`hash : String → String`; none of the verified properties depend on the
digest's internals, only on it being a deterministic function of its input
string.  The Supabase event store and the file system are modelled as explicit
state; best-effort inserts and the fallible backup copy are driven by a small
oracle recording whether the external call succeeds.
-/

/- =============================
   JS string primitives
============================= -/

/-- `String.prototype.trim`: strip whitespace from both ends. -/
def strTrim (s : String) : String :=
  ⟨((s.data.dropWhile Char.isWhitespace).reverse.dropWhile Char.isWhitespace).reverse⟩

/-- `String.prototype.toLowerCase` (ASCII-level model). -/
def strLower (s : String) : String :=
  ⟨s.data.map Char.toLower⟩

/-- `String.prototype.slice(0, n)`. -/
def strTake (s : String) (n : Nat) : String :=
  ⟨s.data.take n⟩

/-- `String.prototype.slice(n)`. -/
def strDrop (s : String) (n : Nat) : String :=
  ⟨s.data.drop n⟩

/-- First index at which `pat` occurs in `l` (`String.prototype.indexOf`,
`none` for the JS result `-1`). -/
def listIndexOf (pat : List Char) : List Char → Option Nat
  | [] => if pat.isPrefixOf ([] : List Char) then some 0 else none
  | c :: t =>
    if pat.isPrefixOf (c :: t) then some 0
    else (listIndexOf pat t).map (· + 1)

/-- `content.indexOf(pat)` on strings. -/
def strIndexOf (s pat : String) : Option Nat :=
  listIndexOf pat.data s.data

/-- `String.prototype.split("\n")` on the character list: `[]` splits to one
empty segment, exactly as in JS. -/
def splitNl : List Char → List (List Char)
  | [] => [[]]
  | c :: cs =>
    if c = '\n' then [] :: splitNl cs
    else
      match splitNl cs with
      | [] => [[c]]
      | l :: ls => (c :: l) :: ls

/-- Join segments with `'\n'` (inverse of `splitNl`). -/
def joinNl : List (List Char) → List Char
  | [] => []
  | [l] => l
  | l :: ls => l ++ '\n' :: joinNl ls

/- =============================
   CONFIG (GUARDRAILS)  — lines 39-45
============================= -/

def PROPOSALS_DIR : String := "fix-proposals"

def BACKUPS_DIR : String := "fix-backups"

def FILE_ALLOWLIST : List String := ["index.js"]

def FIX_ALLOWLIST : List String := ["replace_single_with_maybeSingle"]

def AUTO_APPLY_CONFIDENCE_THRESHOLD : ℚ := 0.85

/- =============================
   INSERTION ZONES — lines 51-62
============================= -/

structure Zone where
  marker : String
  description : String
deriving DecidableEq

def routesMarker : String :=
  "/* =============================\n   ROUTES\n============================= */"

def helpersMarker : String :=
  "/* =============================\n   HELPERS\n============================= */"

/-- `INSERTION_ZONES[zone]`: the two registered zones, `undefined` otherwise. -/
def INSERTION_ZONES (zone : String) : Option Zone :=
  if zone = "routes" then some ⟨routesMarker, "Safe area to insert new Express routes"⟩
  else if zone = "helpers" then some ⟨helpersMarker, "Safe area to insert helper functions"⟩
  else none

/- =============================
   HELPERS — lines 99-158
============================= -/

/-- `path.basename`: the part of the path after the last separator. -/
def basename (p : String) : String :=
  ⟨(p.data.reverse.takeWhile (fun c => c ≠ '/')).reverse⟩

/-- `buildSignature(tool, message)` (lines 112-118): trim and lower-case both
fields, join with `"|"`, digest.  `hash` stands for the external
`crypto.createHash("sha256")` digest. -/
def buildSignature (hash : String → String) (tool message : String) : String :=
  hash (strLower (strTrim tool) ++ "|" ++ strLower (strTrim message))

structure DiffEntry where
  line : Nat
  before : String
  after : String
deriving DecidableEq

/-- Tail of the diff loop once the updated side is exhausted: every remaining
original line compares unequal to JS `undefined` and is reported with an empty
`after`. -/
def diffTailLeft : Nat → List String → List DiffEntry
  | _, [] => []
  | k, a :: o => ⟨k + 1, a, ""⟩ :: diffTailLeft (k + 1) o

/-- Tail of the diff loop once the original side is exhausted. -/
def diffTailRight : Nat → List String → List DiffEntry
  | _, [] => []
  | k, b :: u => ⟨k + 1, "", b⟩ :: diffTailRight (k + 1) u

/-- The loop body of `generateSemanticDiff` (lines 140-148): positional
comparison from index `k`, an out-of-range side compares as JS `undefined`
(always unequal, reported as the empty string). -/
def semDiffAux : Nat → List String → List String → List DiffEntry
  | k, [], u => diffTailRight k u
  | k, o, [] => diffTailLeft k o
  | k, a :: o, b :: u =>
    (if a ≠ b then [⟨k + 1, a, b⟩] else []) ++ semDiffAux (k + 1) o u

/-- `text.split("\n")` as a list of `String` lines. -/
def linesOf (s : String) : List String :=
  (splitNl s.data).map String.mk

/-- `generateSemanticDiff(original, updated)` (lines 134-150). -/
def generateSemanticDiff (original updated : String) : List DiffEntry :=
  semDiffAux 0 (linesOf original) (linesOf updated)

/-- Application of a diff as described by the spec's round-trip property:
replace each numbered line of the original with the entry's `after` string
(out-of-range line numbers have no line to replace). -/
def applyDiff (original : String) (ds : List DiffEntry) : String :=
  ⟨joinNl ((ds.foldl (fun ls e => ls.set (e.line - 1) e.after) (linesOf original)).map String.data)⟩

/-- `canAutoApply` (lines 152-158). -/
def canAutoApply (confidenceScore : ℚ) (autoApplicable : Bool)
    (fixType targetFile : String) : Bool :=
  if !autoApplicable then false
  else if confidenceScore < AUTO_APPLY_CONFIDENCE_THRESHOLD then false
  else if !(FIX_ALLOWLIST.contains fixType) then false
  else if !(FILE_ALLOWLIST.contains targetFile) then false
  else true

/-- The zone-insertion step of `/apply-proposal` (lines 631-645): locate the
marker, splice the trimmed code right after it, padded by blank lines;
`none` when the marker is missing (HTTP 400). -/
def insertAtMarker (content marker code : String) : Option String :=
  match strIndexOf content marker with
  | none => none
  | some idx =>
    some (strTake content (idx + marker.length) ++ "\n\n" ++ strTrim code ++ "\n\n"
      ++ strDrop content (idx + marker.length))

/- =============================
   SAFE FIXERS — lines 163-181
============================= -/

/-- The characters of `"single("`, the tail of the replaced pattern. -/
def singleTail : List Char := ['s', 'i', 'n', 'g', 'l', 'e', '(']

/-- The literal pattern of the global regex `/\.single\(/g`. -/
def singlePat : List Char := '.' :: singleTail

/-- The replacement text `".maybeSingle("`. -/
def maybeSingleRep : List Char :=
  ['.', 'm', 'a', 'y', 'b', 'e', 'S', 'i', 'n', 'g', 'l', 'e', '(']

/-- Left-to-right, non-overlapping global replacement of `".single("` by
`".maybeSingle("` (the semantics of `original.replace(/\.single\(/g, ...)`),
with an explicit fuel argument to keep the recursion structural. -/
def replAuxF : Nat → List Char → List Char
  | 0, l => l
  | _ + 1, [] => []
  | fuel + 1, c :: cs =>
    if singlePat.isPrefixOf (c :: cs) then maybeSingleRep ++ replAuxF fuel (cs.drop 7)
    else c :: replAuxF fuel cs

/-- `original.replace(/\.single\(/g, ".maybeSingle(")` on character lists. -/
def replaceSingleAll (l : List Char) : List Char :=
  replAuxF l.length l

structure FixResult where
  changed : Bool
  updated : String
  summary : String
deriving DecidableEq

/-- `fix_replace_single_with_maybeSingle` (lines 163-174). -/
def fix_replace_single_with_maybeSingle (original : String) : FixResult :=
  let updated : String := ⟨replaceSingleAll original.data⟩
  let changed := updated != original
  { changed := changed, updated := updated,
    summary :=
      if changed then
        "Replaced .single( with .maybeSingle( to avoid 400 errors on 0-row results."
      else "No .single( usage found." }

/-- `runFix` (lines 176-181): the closed fixer registry. -/
def runFix (fixType : String) (original : String) : FixResult :=
  if fixType = "replace_single_with_maybeSingle" then
    fix_replace_single_with_maybeSingle original
  else
    { changed := false, updated := original, summary := "Unknown fixType" }

/- =============================
   STATE: file system, event store, locks
============================= -/

/-- Row of the `applied_patches` table (the duplicate-apply guard's store);
`project` is absent (`none`) for `/apply-fix` records. -/
structure PatchRow where
  source : String
  project : Option String
  target_file : String
  patch_type : String
  patch_key : String
  summary : String
  backup_name : String
deriving DecidableEq

/-- Row of the `code_proposals` table. -/
structure ProposalRow where
  source : String
  project : String
  target_file : String
  insertion_zone : String
  intent : String
  proposed_code : String
  proposal_hash : String
  mode : String
  status : String
deriving DecidableEq

/-- Row of the `file_snapshots` table. -/
structure SnapshotRow where
  project : String
  file_path : String
  content_hash : String
  bytes : Nat
deriving DecidableEq

/-- Row of the `fix_attempts` table. -/
structure AttemptRow where
  source : String
  target_file : String
  fix_type : String
  mode : String
  changed : Bool
  summary : String
  diff_count : Nat
deriving DecidableEq

/-- World state threaded through an orchestrated operation: on-disk files
(path ↦ content), the backups directory (backup path ↦ copied content), the
in-memory `fileLocks` map, and the four external event-store tables. -/
structure SysState where
  files : List (String × String)
  backups : List (String × String)
  locks : List String
  patches : List PatchRow
  proposals : List ProposalRow
  snapshots : List SnapshotRow
  attempts : List AttemptRow
deriving DecidableEq

/-- Process environment: the panel token, working directory, the timestamp
`nowStamp()` would produce, and the external SHA-256 digest. -/
structure Config where
  panelToken : String
  cwd : String
  stamp : String
  hash : String → String

/-- Success/failure of the external calls made during one request: `dbOk`
models reachability of the event store (`tryInsert` and the duplicate-check
query are best-effort), `backupOk` whether `backupFile`'s directory creation
and copy succeed (it throws on failure). -/
structure Oracle where
  dbOk : Bool
  backupOk : Bool
deriving DecidableEq

/-- A settled JS promise: fulfilled with a response, or rejected because a
step (such as `backupFile`) threw. -/
inductive Outcome (α : Type) where
  | ok (r : α)
  | thrown
deriving DecidableEq

/-- Body of a `POST /apply-proposal` request after destructuring with its
defaults; the empty string stands for a missing/falsy field, `header` is the
`x-panel-token` request header. -/
structure ProposalReq where
  header : String
  targetFile : String
  zone : String
  proposedCode : String
  intent : String
  mode : String
  project : String
deriving DecidableEq

/-- Body of a `POST /apply-fix` request after destructuring. -/
structure FixReq where
  header : String
  targetFile : String
  fixType : String
  mode : String
deriving DecidableEq

/-- The distinct responses `/apply-proposal` can send. -/
inductive ProposalResp where
  | errNoToken
  | errUnauthorized
  | errMissing
  | errNotAllowlisted
  | errUnknownZone
  | errInvalidMode
  | errNotFound
  | errMarkerNotFound
  | conflict (proposalHash : String)
  | previewed (proposalHash : String) (diff : List DiffEntry)
  | applied (proposalHash backupName backupPath : String) (diffCount : Nat)
deriving DecidableEq

/-- HTTP status of each `/apply-proposal` response. -/
def proposalStatus : ProposalResp → Nat
  | .errNoToken => 500
  | .errUnauthorized => 401
  | .errMissing => 400
  | .errNotAllowlisted => 403
  | .errUnknownZone => 400
  | .errInvalidMode => 400
  | .errNotFound => 404
  | .errMarkerNotFound => 400
  | .conflict _ => 409
  | .previewed _ _ => 200
  | .applied _ _ _ _ => 200

/-- The distinct responses `/apply-fix` can send. -/
inductive FixResp where
  | errNoToken
  | errUnauthorized
  | errMissing
  | errFileNotAllowlisted
  | errFixNotAllowlisted
  | errInvalidMode
  | errNotFound
  | dryRun (changed : Bool) (summary : String) (diff : List DiffEntry)
  | applied (backupName backupPath summary : String)
deriving DecidableEq

/-- `fs.readFileSync` on the modelled disk. -/
def lookupFile (fs : List (String × String)) (k : String) : Option String :=
  (fs.find? (fun p => p.1 == k)).map (fun p => p.2)

/-- `fs.writeFileSync`: overwrite the file's content (creating it if absent). -/
def setFile : List (String × String) → String → String → List (String × String)
  | [], k, v => [(k, v)]
  | (k', v') :: t, k, v => if k' = k then (k, v) :: t else (k', v') :: setFile t k v

/-- `path.join(process.cwd(), targetFile)`. -/
def targetPathOf (cfg : Config) (file : String) : String :=
  cfg.cwd ++ "/" ++ file

/-- The `backupName` produced by `backupFile` (lines 99-106). -/
def backupNameOf (cfg : Config) (targetPath : String) : String :=
  basename targetPath ++ "." ++ cfg.stamp ++ ".bak"

/-- The `backupPath` produced by `backupFile`. -/
def backupPathOf (cfg : Config) (targetPath : String) : String :=
  BACKUPS_DIR ++ "/" ++ backupNameOf cfg targetPath

/-- `withFileLock(file, fn)` (lines 68-78): mark the lock held, run the body,
and — in a `finally` — delete the lock whether the body fulfilled or threw. -/
def withFileLock {α : Type} (file : String) (st : SysState)
    (body : SysState → Outcome α × SysState) : Outcome α × SysState :=
  let st₁ := { st with locks := file :: st.locks }
  let r := body st₁
  (r.1, { r.2 with locks := r.2.locks.erase file })

/-- The proposal hash `sha256(targetFile|zone|intent|normalizedCode)`
(line 650). -/
def proposalHashOf (cfg : Config) (req : ProposalReq) : String :=
  cfg.hash (req.targetFile ++ "|" ++ req.zone ++ "|" ++ req.intent ++ "|"
    ++ strTrim req.proposedCode)

/- =============================
   APPLY PROPOSAL — lines 595-729
============================= -/

/-- The guarded body of `/apply-proposal` (inside `withFileLock`). -/
def applyProposalBody (cfg : Config) (req : ProposalReq) (o : Oracle) (z : Zone)
    (st₁ : SysState) : Outcome ProposalResp × SysState :=
  let targetPath := targetPathOf cfg req.targetFile
  let original := (lookupFile st₁.files targetPath).getD ""
  match insertAtMarker original z.marker req.proposedCode with
  | none => (.ok .errMarkerNotFound, st₁)
  | some updated =>
    let semanticDiff := generateSemanticDiff original updated
    let proposalHash := proposalHashOf cfg req
    let st₂ :=
      if o.dbOk then
        { st₁ with proposals :=
          ⟨"panel", req.project, req.targetFile, req.zone, req.intent,
            strTrim req.proposedCode, proposalHash, req.mode,
            if req.mode = "apply" then "applied_requested" else "previewed"⟩ :: st₁.proposals }
      else st₁
    let st₃ :=
      if o.dbOk then
        { st₂ with snapshots :=
          ⟨req.project, req.targetFile, cfg.hash original, original.utf8ByteSize⟩ :: st₂.snapshots }
      else st₂
    if req.mode = "dry-run" then (.ok (.previewed proposalHash semanticDiff), st₃)
    else
      match (if o.dbOk then st₃.patches.find? (fun r => r.patch_key == proposalHash) else none) with
      | some _ => (.ok (.conflict proposalHash), st₃)
      | none =>
        if o.backupOk then
          let bName := backupNameOf cfg targetPath
          let bPath := backupPathOf cfg targetPath
          let st₄ := { st₃ with backups := (bPath, original) :: st₃.backups }
          let st₅ := { st₄ with files := setFile st₄.files targetPath updated }
          let st₆ :=
            if o.dbOk then
              { st₅ with patches :=
                ⟨"panel", some req.project, req.targetFile, "proposal", proposalHash,
                  req.intent, bName⟩ :: st₅.patches }
            else st₅
          (.ok (.applied proposalHash bName bPath semanticDiff.length), st₆)
        else (.thrown, st₃)

/-- `POST /apply-proposal` (lines 595-729): auth, validation, allowlist, zone
and mode checks, existence check, then the locked insert-backup-write body. -/
def applyProposal (cfg : Config) (req : ProposalReq) (o : Oracle) (st : SysState) :
    Outcome ProposalResp × SysState :=
  if cfg.panelToken = "" then (.ok .errNoToken, st)
  else if req.header = "" ∨ req.header ≠ cfg.panelToken then (.ok .errUnauthorized, st)
  else if req.targetFile = "" ∨ req.zone = "" ∨ req.proposedCode = "" ∨ req.intent = "" then
    (.ok .errMissing, st)
  else if !(FILE_ALLOWLIST.contains req.targetFile) then (.ok .errNotAllowlisted, st)
  else
    match INSERTION_ZONES req.zone with
    | none => (.ok .errUnknownZone, st)
    | some z =>
      if ¬(req.mode = "dry-run" ∨ req.mode = "apply") then (.ok .errInvalidMode, st)
      else if (lookupFile st.files (targetPathOf cfg req.targetFile)).isNone then
        (.ok .errNotFound, st)
      else withFileLock req.targetFile st (applyProposalBody cfg req o z)

/- =============================
   APPLY FIX — lines 510-587
============================= -/

/-- The guarded body of `/apply-fix` (inside `withFileLock`). -/
def applyFixBody (cfg : Config) (req : FixReq) (o : Oracle)
    (st₁ : SysState) : Outcome FixResp × SysState :=
  let targetPath := targetPathOf cfg req.targetFile
  let original := (lookupFile st₁.files targetPath).getD ""
  let result := runFix req.fixType original
  let diff := generateSemanticDiff original result.updated
  let st₂ :=
    if o.dbOk then
      { st₁ with attempts :=
        ⟨"panel", req.targetFile, req.fixType, req.mode, result.changed,
          result.summary, diff.length⟩ :: st₁.attempts }
    else st₁
  if req.mode = "dry-run" then (.ok (.dryRun result.changed result.summary diff), st₂)
  else
    if o.backupOk then
      let bName := backupNameOf cfg targetPath
      let bPath := backupPathOf cfg targetPath
      let st₃ := { st₂ with backups := (bPath, original) :: st₂.backups }
      let st₄ := { st₃ with files := setFile st₃.files targetPath result.updated }
      let st₅ :=
        if o.dbOk then
          { st₄ with patches :=
            ⟨"panel", none, req.targetFile, "fix",
              cfg.hash (req.fixType ++ "|" ++ req.targetFile ++ "|" ++ bName),
              result.summary, bName⟩ :: st₄.patches }
        else st₄
      (.ok (.applied bName bPath result.summary), st₅)
    else (.thrown, st₂)

/-- `POST /apply-fix` (lines 510-587). -/
def applyFix (cfg : Config) (req : FixReq) (o : Oracle) (st : SysState) :
    Outcome FixResp × SysState :=
  if cfg.panelToken = "" then (.ok .errNoToken, st)
  else if req.header = "" ∨ req.header ≠ cfg.panelToken then (.ok .errUnauthorized, st)
  else if req.targetFile = "" ∨ req.fixType = "" then (.ok .errMissing, st)
  else if !(FILE_ALLOWLIST.contains req.targetFile) then (.ok .errFileNotAllowlisted, st)
  else if !(FIX_ALLOWLIST.contains req.fixType) then (.ok .errFixNotAllowlisted, st)
  else if ¬(req.mode = "dry-run" ∨ req.mode = "apply") then (.ok .errInvalidMode, st)
  else if (lookupFile st.files (targetPathOf cfg req.targetFile)).isNone then
    (.ok .errNotFound, st)
  else withFileLock req.targetFile st (applyFixBody cfg req o)

/- =============================
   concrete scenario used by witnesses
============================= -/

/-- Concrete configuration for closed witnesses (`hash` is a stand-in
injective-on-these-inputs digest: the identity). -/
def cfgW : Config := ⟨"token", ".", "2025-01-01T00-00-00-000Z", fun s => s⟩

/-- A target file whose content is exactly the routes marker. -/
def stW : SysState :=
  ⟨[("./index.js", routesMarker)], [], [], [], [], [], []⟩

def reqPW : ProposalReq :=
  ⟨"token", "index.js", "routes", "console.log(1)", "add a log line", "apply", "MLearning"⟩

def reqPW_dry : ProposalReq :=
  ⟨"token", "index.js", "routes", "console.log(1)", "add a log line", "dry-run", "MLearning"⟩

def reqFW : FixReq :=
  ⟨"token", "index.js", "replace_single_with_maybeSingle", "apply"⟩

def reqFW_dry : FixReq :=
  ⟨"token", "index.js", "replace_single_with_maybeSingle", "dry-run"⟩

def oracleOk : Oracle := ⟨true, true⟩

def oracleNoBackup : Oracle := ⟨true, false⟩

/-- A guarded body that rejects (its promise throws) without touching state. -/
def throwingBody : SysState → Outcome Unit × SysState := fun s => (.thrown, s)

/- =============================
   theorems: pure components
============================= -/

theorem replAuxF_congr (f : Nat) : ∀ (g : Nat) (l : List Char),
    l.length ≤ f → l.length ≤ g → replAuxF f l = replAuxF g l := by
  induction f with
  | zero =>
    intro g l hf _
    have hl : l = [] := List.length_eq_zero.mp (Nat.le_zero.mp hf)
    subst hl
    cases g <;> rfl
  | succ f ih =>
    intro g l hf hg
    cases l with
    | nil => cases g <;> rfl
    | cons c cs =>
      have hf' : cs.length ≤ f := by simp only [List.length_cons] at hf; omega
      cases g with
      | zero => simp at hg
      | succ g' =>
        have hg' : cs.length ≤ g' := by simp only [List.length_cons] at hg; omega
        by_cases hp : singlePat.isPrefixOf (c :: cs)
        · simp only [replAuxF, if_pos hp]
          have hd : (cs.drop 7).length ≤ f := le_trans (by simp [List.length_drop]) hf'
          have hd' : (cs.drop 7).length ≤ g' := le_trans (by simp [List.length_drop]) hg'
          rw [ih g' (cs.drop 7) hd hd']
        · simp only [replAuxF, if_neg hp]
          rw [ih g' cs hf' hg']

theorem replaceSingleAll_nil : replaceSingleAll [] = [] := rfl

theorem replaceSingleAll_cons (c : Char) (cs : List Char) :
    replaceSingleAll (c :: cs) =
      if singlePat.isPrefixOf (c :: cs) then maybeSingleRep ++ replaceSingleAll (cs.drop 7)
      else c :: replaceSingleAll cs := by
  show replAuxF (cs.length + 1) (c :: cs) = _
  by_cases hp : singlePat.isPrefixOf (c :: cs)
  · simp only [replAuxF, if_pos hp]
    rw [replAuxF_congr cs.length (cs.drop 7).length (cs.drop 7)
      (by simp [List.length_drop]) le_rfl]
    rfl
  · simp only [replAuxF, if_neg hp]
    rfl

/-- A pattern that contains no dot and is a prefix of the replacement output
was already a prefix of the input: the rewriter only ever emits new text
starting with a dot. -/
theorem noDot_prefix_of_repl (n : Nat) :
    ∀ (l q : List Char), l.length ≤ n → '.' ∉ q →
      q.isPrefixOf (replaceSingleAll l) = true → q.isPrefixOf l = true := by
  induction n with
  | zero =>
    intro l q hl _ h
    have hnil : l = [] := List.length_eq_zero.mp (Nat.le_zero.mp hl)
    subst hnil
    rw [replaceSingleAll_nil] at h
    exact h
  | succ n ih =>
    intro l q hl hq h
    cases l with
    | nil => rw [replaceSingleAll_nil] at h; exact h
    | cons c cs =>
      have hcs : cs.length ≤ n := by simp only [List.length_cons] at hl; omega
      rw [replaceSingleAll_cons] at h
      by_cases hp : singlePat.isPrefixOf (c :: cs)
      · rw [if_pos hp] at h
        cases q with
        | nil => simp [List.isPrefixOf]
        | cons w q' =>
          exfalso
          have hw : w = '.' := by
            simp only [maybeSingleRep, List.cons_append, List.isPrefixOf,
              Bool.and_eq_true, beq_iff_eq] at h
            exact h.1
          exact hq (by rw [hw] at *; exact List.mem_cons_self '.' q')
      · rw [if_neg hp] at h
        cases q with
        | nil => simp [List.isPrefixOf]
        | cons w q' =>
          simp only [List.isPrefixOf, Bool.and_eq_true, beq_iff_eq] at h ⊢
          refine ⟨h.1, ?_⟩
          exact ih cs q' hcs (fun hm => hq (List.mem_cons_of_mem w hm)) h.2

/-- If a pattern is a prefix of `r ++ X` then its first `r.length` characters
are a prefix of `r`. -/
theorem isPrefixOf_append_take (p : List Char) :
    ∀ (r X : List Char), p.isPrefixOf (r ++ X) = true →
      (p.take r.length).isPrefixOf r = true := by
  induction p with
  | nil => intro r X _; simp [List.isPrefixOf]
  | cons a p' ih =>
    intro r X h
    cases r with
    | nil => simp [List.isPrefixOf]
    | cons b r' =>
      simp only [List.cons_append, List.isPrefixOf, Bool.and_eq_true] at h
      simp only [List.length_cons, List.take_succ_cons, List.isPrefixOf,
        Bool.and_eq_true]
      exact ⟨h.1, ih r' X h.2⟩

/-- No suffix of the replacement text `".maybeSingle("` (other than the empty
one) can start an occurrence of `".single("`, whatever follows it. -/
theorem singlePat_not_after_rep (X : List Char) (i : Nat) (hi : i < 13) :
    singlePat.isPrefixOf (maybeSingleRep.drop i ++ X) = false := by
  have hconc : ∀ j, j < 13 →
      (singlePat.take (maybeSingleRep.drop j).length).isPrefixOf (maybeSingleRep.drop j) = false := by
    decide
  rcases Bool.eq_false_or_eq_true (singlePat.isPrefixOf (maybeSingleRep.drop i ++ X)) with h | h
  · exfalso
    have h' := isPrefixOf_append_take singlePat (maybeSingleRep.drop i) X h
    rw [hconc i hi] at h'
    exact Bool.false_ne_true h'
  · exact h

/-- The output of the rewriter contains no occurrence of `".single("` at any
position. -/
theorem no_occurrence_in_repl (n : Nat) :
    ∀ (l : List Char), l.length ≤ n → ∀ i,
      singlePat.isPrefixOf ((replaceSingleAll l).drop i) = false := by
  induction n with
  | zero =>
    intro l hl i
    have hnil : l = [] := List.length_eq_zero.mp (Nat.le_zero.mp hl)
    subst hnil
    rw [replaceSingleAll_nil, List.drop_nil]
    rfl
  | succ n ih =>
    intro l hl i
    cases l with
    | nil => rw [replaceSingleAll_nil, List.drop_nil]; rfl
    | cons c cs =>
      have hcs : cs.length ≤ n := by simp only [List.length_cons] at hl; omega
      rw [replaceSingleAll_cons]
      by_cases hp : singlePat.isPrefixOf (c :: cs)
      · rw [if_pos hp]
        rcases Nat.lt_or_ge i 13 with hi | hi
        · rw [List.drop_append_of_le_length (by simp [maybeSingleRep]; omega)]
          exact singlePat_not_after_rep _ i hi
        · have hsplit : i = maybeSingleRep.length + (i - 13) := by
            simp only [maybeSingleRep, List.length_cons, List.length_nil]
            omega
          rw [hsplit, List.drop_append]
          have hd : (cs.drop 7).length ≤ n := le_trans (by simp [List.length_drop]) hcs
          exact ih (cs.drop 7) hd (i - 13)
      · rw [if_neg hp]
        cases i with
        | zero =>
          rw [List.drop_zero]
          rcases Bool.eq_false_or_eq_true (singlePat.isPrefixOf (c :: replaceSingleAll cs))
            with h | h
          swap
          · exact h
          · exfalso
            simp only [singlePat, List.isPrefixOf, Bool.and_eq_true, beq_iff_eq] at h
            have h2 := noDot_prefix_of_repl n cs singleTail hcs (by decide) h.2
            apply hp
            simp only [singlePat, List.isPrefixOf, Bool.and_eq_true, beq_iff_eq]
            exact ⟨h.1, h2⟩
        | succ i' =>
          rw [List.drop_succ_cons]
          exact ih cs hcs i'

/-- A text with no occurrence of `".single("` is a fixed point of the
rewriter. -/
theorem repl_fixed (n : Nat) :
    ∀ (l : List Char), l.length ≤ n →
      (∀ i, singlePat.isPrefixOf (l.drop i) = false) → replaceSingleAll l = l := by
  induction n with
  | zero =>
    intro l hl _
    have hnil : l = [] := List.length_eq_zero.mp (Nat.le_zero.mp hl)
    subst hnil
    exact replaceSingleAll_nil
  | succ n ih =>
    intro l hl hocc
    cases l with
    | nil => exact replaceSingleAll_nil
    | cons c cs =>
      have hcs : cs.length ≤ n := by simp only [List.length_cons] at hl; omega
      have h0 := hocc 0
      rw [List.drop_zero] at h0
      rw [replaceSingleAll_cons, if_neg (by rw [h0]; exact Bool.false_ne_true)]
      have : replaceSingleAll cs = cs :=
        ih cs hcs (fun i => by have := hocc (i + 1); rwa [List.drop_succ_cons] at this)
      rw [this]

/-- Global `".single(" → ".maybeSingle("` replacement is idempotent. -/
theorem replaceSingleAll_idem (l : List Char) :
    replaceSingleAll (replaceSingleAll l) = replaceSingleAll l :=
  repl_fixed (replaceSingleAll l).length (replaceSingleAll l) le_rfl
    (no_occurrence_in_repl l.length l le_rfl)

/-- C8: the `replace_single_with_maybeSingle` fixer is idempotent — running it
on its own output reports `changed = false` and returns the output unchanged. -/
theorem fixer_idempotent (T : String) :
    (fix_replace_single_with_maybeSingle ((fix_replace_single_with_maybeSingle T).updated)).changed
        = false ∧
    (fix_replace_single_with_maybeSingle ((fix_replace_single_with_maybeSingle T).updated)).updated
        = (fix_replace_single_with_maybeSingle T).updated := by
  unfold fix_replace_single_with_maybeSingle
  simp only []
  constructor
  · show (String.mk (replaceSingleAll (replaceSingleAll T.data)) != String.mk (replaceSingleAll T.data)) = false
    rw [replaceSingleAll_idem]
    exact bne_self_eq_false _
  · show String.mk (replaceSingleAll (replaceSingleAll T.data)) = String.mk (replaceSingleAll T.data)
    rw [replaceSingleAll_idem]

theorem splitNl_ne_nil (l : List Char) : splitNl l ≠ [] := by
  cases l with
  | nil => simp [splitNl]
  | cons c cs =>
    simp only [splitNl]
    by_cases hc : c = '\n'
    · simp [hc]
    · rw [if_neg hc]
      cases h : splitNl cs <;> simp

theorem joinNl_splitNl (l : List Char) : joinNl (splitNl l) = l := by
  induction l with
  | nil => rfl
  | cons c cs ih =>
    simp only [splitNl]
    by_cases hc : c = '\n'
    · rw [if_pos hc]
      cases h : splitNl cs with
      | nil => exact absurd h (splitNl_ne_nil cs)
      | cons sl sls =>
        rw [h] at ih
        simp only [joinNl, List.nil_append]
        rw [ih, hc]
    · rw [if_neg hc]
      cases h : splitNl cs with
      | nil => exact absurd h (splitNl_ne_nil cs)
      | cons sl sls =>
        rw [h] at ih
        cases sls with
        | nil => simp only [joinNl] at ih ⊢; rw [ih]
        | cons sl₂ sls₂ =>
          simp only [joinNl, List.cons_append] at ih ⊢
          rw [ih]

theorem set_len_append (p t : List String) (a b : String) :
    (p ++ a :: t).set p.length b = p ++ b :: t := by
  induction p with
  | nil => rfl
  | cons x p' ih =>
    simp only [List.cons_append, List.length_cons, List.set, List.append_eq]
    rw [ih]

theorem semDiff_fold (o : List String) : ∀ (u pre : List String), o.length = u.length →
    (semDiffAux pre.length o u).foldl (fun ls e => ls.set (e.line - 1) e.after) (pre ++ o) =
      pre ++ u := by
  induction o with
  | nil =>
    intro u pre h
    have hu : u = [] := List.length_eq_zero.mp (by simp only [List.length_nil] at h; omega)
    subst hu
    rfl
  | cons a o' ih =>
    intro u pre h
    cases u with
    | nil => simp at h
    | cons b u' =>
      have h' : o'.length = u'.length := by simp only [List.length_cons] at h; omega
      simp only [semDiffAux]
      by_cases hab : a = b
      · rw [if_neg (by simp [hab]), List.nil_append]
        subst hab
        have := ih u' (pre ++ [a]) h'
        simp only [List.length_append, List.length_cons, List.length_nil,
          List.append_assoc, List.singleton_append] at this
        simpa using this
      · rw [if_pos hab, List.singleton_append, List.foldl_cons]
        have hset : (pre ++ a :: o').set (pre.length + 1 - 1) b = pre ++ b :: o' := by
          simp only [Nat.add_sub_cancel]
          exact set_len_append pre o' a b
        rw [hset]
        have := ih u' (pre ++ [b]) h'
        simp only [List.length_append, List.length_cons, List.length_nil,
          List.append_assoc, List.singleton_append] at this
        simpa using this

/-- C5 counterexample: the positional diff does not round-trip when the
updated text has fewer lines than the original — replacing line 2 of
`"x\ny"` by the empty string leaves a trailing empty line, not `"x"`. -/
theorem diff_round_trip_counterexample :
    applyDiff "x\ny" (generateSemanticDiff "x\ny" "x") ≠ "x" := by decide

/-- C5 amended: applying the DiffEntry sequence of `generateSemanticDiff A B`
to `A` — replacing each numbered line of `A` by the entry's `after` string —
reconstructs `B` exactly whenever `A` and `B` split into the same number of
lines; with differing line counts the positional diff does not round-trip. -/
theorem diff_round_trip_of_line_count (A B : String)
    (h : (linesOf A).length = (linesOf B).length) :
    applyDiff A (generateSemanticDiff A B) = B := by
  unfold applyDiff generateSemanticDiff
  have hfold := semDiff_fold (linesOf A) (linesOf B) [] h
  simp only [List.nil_append, List.length_nil] at hfold
  rw [hfold]
  have hmap : (linesOf B).map String.data = splitNl B.data := by
    rw [linesOf, List.map_map]
    have hcomp : String.data ∘ String.mk = id := rfl
    rw [hcomp, List.map_id]
  rw [hmap, joinNl_splitNl]

theorem diff_round_trip_of_line_count_witness :
    applyDiff "a\nb" (generateSemanticDiff "a\nb" "a\nc") = "a\nc" :=
  diff_round_trip_of_line_count "a\nb" "a\nc" (by decide)

/-- C9: `buildSignature` is a pure function of the trimmed, lower-cased
fields, so it is deterministic and two inputs that differ only in letter case
or in leading/trailing whitespace of either field hash identically. -/
theorem buildSignature_normalized (hash : String → String) (t₁ m₁ t₂ m₂ : String)
    (ht : strLower (strTrim t₁) = strLower (strTrim t₂))
    (hm : strLower (strTrim m₁) = strLower (strTrim m₂)) :
    buildSignature hash t₁ m₁ = buildSignature hash t₂ m₂ := by
  unfold buildSignature
  rw [ht, hm]

theorem buildSignature_normalized_witness :
    buildSignature (fun s => s) " Tool " "MSG" = buildSignature (fun s => s) "tool" " msg " :=
  buildSignature_normalized (fun s => s) " Tool " "MSG" "tool" " msg "
    (by decide) (by decide)

/-- C7: the auto-apply policy gate returns `true` exactly when the solution is
marked auto-applicable, the confidence reaches the 0.85 threshold (the
boundary value passes), and both the fix type and the target file are
allowlisted. -/
theorem canAutoApply_iff (s : ℚ) (a : Bool) (f t : String) :
    canAutoApply s a f t = true ↔
      (a = true ∧ AUTO_APPLY_CONFIDENCE_THRESHOLD ≤ s ∧
        FIX_ALLOWLIST.contains f = true ∧ FILE_ALLOWLIST.contains t = true) := by
  unfold canAutoApply
  cases a with
  | false => simp
  | true =>
    by_cases hs : s < AUTO_APPLY_CONFIDENCE_THRESHOLD
    · simp [hs, not_le.mpr hs]
    · by_cases hf : FIX_ALLOWLIST.contains f <;>
        by_cases ht : FILE_ALLOWLIST.contains t <;>
          simp [hs, hf, ht, not_lt.mp hs]

/-- C4 counterexample: the spec's marker-insertion example is wrong about the
code: the newline that followed the marker in the original content survives
after the inserted block, so the output is not `"A\n/* ROUTES */\n\nconsole.log(1)\n\nB"`. -/
theorem insertAtMarker_example_ne_spec :
    insertAtMarker "A\n/* ROUTES */\nB" "/* ROUTES */" "console.log(1)" ≠
      some "A\n/* ROUTES */\n\nconsole.log(1)\n\nB" := by decide

/-- C4 amended: inserting `"console.log(1)"` at marker `"/* ROUTES */"` in
`"A\n/* ROUTES */\nB"` yields `"A\n/* ROUTES */\n\nconsole.log(1)\n\n\nB"` —
the two padding newlines plus the pre-existing newline before `B`. -/
theorem insertAtMarker_example_actual :
    insertAtMarker "A\n/* ROUTES */\nB" "/* ROUTES */" "console.log(1)" =
      some "A\n/* ROUTES */\n\nconsole.log(1)\n\n\nB" := by decide

theorem withFileLock_snd_files {α : Type} (file : String) (st : SysState)
    (body : SysState → Outcome α × SysState) :
    (withFileLock file st body).2.files = (body { st with locks := file :: st.locks }).2.files := rfl

theorem withFileLock_snd_backups {α : Type} (file : String) (st : SysState)
    (body : SysState → Outcome α × SysState) :
    (withFileLock file st body).2.backups =
      (body { st with locks := file :: st.locks }).2.backups := rfl

/-- C6: `withFileLock` releases the per-file lock on every exit path — the
deletion runs in a `finally`, so whether the guarded body fulfills or throws
(at the fixer, diff, backup or write step), the lock map afterwards equals the
one before acquisition and the file can be acquired again.  The hypothesis
records that the guarded bodies never touch the lock map themselves, as in the
source. -/
theorem withFileLock_releases {α : Type} (file : String) (st : SysState)
    (body : SysState → Outcome α × SysState)
    (hbody : ∀ s, (body s).2.locks = s.locks) :
    (withFileLock file st body).2.locks = st.locks ∧
    (file ∉ st.locks → file ∉ (withFileLock file st body).2.locks) := by
  have hrel : (withFileLock file st body).2.locks = st.locks := by
    show ((body { st with locks := file :: st.locks }).2.locks.erase file) = st.locks
    rw [hbody]
    exact List.erase_cons_head file st.locks
  exact ⟨hrel, fun h => hrel ▸ h⟩

theorem withFileLock_releases_witness :
    (withFileLock "index.js" stW throwingBody).2.locks = stW.locks ∧
    "index.js" ∉ (withFileLock "index.js" stW throwingBody).2.locks := by
  have h := withFileLock_releases "index.js" stW throwingBody (fun _ => rfl)
  exact ⟨h.1, h.2 (by decide)⟩

theorem applyProposalBody_dry_pure (cfg : Config) (req : ProposalReq) (o : Oracle)
    (z : Zone) (st₁ : SysState) (h : req.mode = "dry-run") :
    (applyProposalBody cfg req o z st₁).2.files = st₁.files ∧
    (applyProposalBody cfg req o z st₁).2.backups = st₁.backups := by
  simp only [applyProposalBody, h]
  split
  · exact ⟨rfl, rfl⟩
  · cases o.dbOk <;> simp

theorem applyFixBody_dry_pure (cfg : Config) (req : FixReq) (o : Oracle)
    (st₁ : SysState) (h : req.mode = "dry-run") :
    (applyFixBody cfg req o st₁).2.files = st₁.files ∧
    (applyFixBody cfg req o st₁).2.backups = st₁.backups := by
  simp only [applyFixBody, h]
  cases o.dbOk <;> simp

/-- C3: in preview (`dry-run`) mode neither operation changes any on-disk file
content or creates a backup, on any path — validation failures, marker
misses, and successful previews alike. -/
theorem preview_mode_pure (cfg : Config) (reqP : ProposalReq) (reqF : FixReq)
    (o : Oracle) (st : SysState) (hP : reqP.mode = "dry-run") (hF : reqF.mode = "dry-run") :
    ((applyProposal cfg reqP o st).2.files = st.files ∧
     (applyProposal cfg reqP o st).2.backups = st.backups) ∧
    ((applyFix cfg reqF o st).2.files = st.files ∧
     (applyFix cfg reqF o st).2.backups = st.backups) := by
  constructor
  · simp only [applyProposal]
    repeat' split
    all_goals first
      | exact ⟨(applyProposalBody_dry_pure cfg reqP o _ _ hP).1,
          (applyProposalBody_dry_pure cfg reqP o _ _ hP).2⟩
      | exact ⟨rfl, rfl⟩
  · simp only [applyFix]
    repeat' split
    all_goals first
      | exact ⟨(applyFixBody_dry_pure cfg reqF o _ hF).1,
          (applyFixBody_dry_pure cfg reqF o _ hF).2⟩
      | exact ⟨rfl, rfl⟩

theorem preview_mode_pure_witness :
    (applyProposal cfgW reqPW_dry oracleOk stW).2.files = stW.files ∧
    (applyFix cfgW reqFW_dry oracleOk stW).2.files = stW.files := by
  have h := preview_mode_pure cfgW reqPW_dry reqFW_dry oracleOk stW rfl rfl
  exact ⟨h.1.1, h.2.1⟩

theorem applyProposalBody_nobackup (cfg : Config) (req : ProposalReq) (o : Oracle)
    (z : Zone) (st₁ : SysState) (h : o.backupOk = false) :
    (applyProposalBody cfg req o z st₁).2.files = st₁.files ∧
    (applyProposalBody cfg req o z st₁).2.backups = st₁.backups := by
  simp only [applyProposalBody, h]
  repeat' split
  all_goals simp_all

theorem applyFixBody_nobackup (cfg : Config) (req : FixReq) (o : Oracle)
    (st₁ : SysState) (h : o.backupOk = false) :
    (applyFixBody cfg req o st₁).2.files = st₁.files ∧
    (applyFixBody cfg req o st₁).2.backups = st₁.backups := by
  simp only [applyFixBody, h]
  repeat' split
  all_goals simp_all

theorem applyProposal_nobackup (cfg : Config) (req : ProposalReq) (o : Oracle)
    (st : SysState) (h : o.backupOk = false) :
    (applyProposal cfg req o st).2.files = st.files ∧
    (applyProposal cfg req o st).2.backups = st.backups := by
  simp only [applyProposal]
  repeat' split
  all_goals first
    | exact ⟨(applyProposalBody_nobackup cfg req o _ _ h).1,
        (applyProposalBody_nobackup cfg req o _ _ h).2⟩
    | exact ⟨rfl, rfl⟩

theorem applyFix_nobackup (cfg : Config) (req : FixReq) (o : Oracle)
    (st : SysState) (h : o.backupOk = false) :
    (applyFix cfg req o st).2.files = st.files ∧
    (applyFix cfg req o st).2.backups = st.backups := by
  simp only [applyFix]
  repeat' split
  all_goals first
    | exact ⟨(applyFixBody_nobackup cfg req o _ h).1,
        (applyFixBody_nobackup cfg req o _ h).2⟩
    | exact ⟨rfl, rfl⟩

theorem applyProposalBody_write_backup (cfg : Config) (req : ProposalReq) (o : Oracle)
    (z : Zone) (st₁ : SysState)
    (hne : (applyProposalBody cfg req o z st₁).2.files ≠ st₁.files) :
    (applyProposalBody cfg req o z st₁).2.backups =
      (backupPathOf cfg (targetPathOf cfg req.targetFile),
        (lookupFile st₁.files (targetPathOf cfg req.targetFile)).getD "") :: st₁.backups := by
  revert hne
  simp only [applyProposalBody]
  repeat' split
  all_goals intro hne
  all_goals first
    | exact absurd rfl hne
    | rfl

theorem applyFixBody_write_backup (cfg : Config) (req : FixReq) (o : Oracle)
    (st₁ : SysState)
    (hne : (applyFixBody cfg req o st₁).2.files ≠ st₁.files) :
    (applyFixBody cfg req o st₁).2.backups =
      (backupPathOf cfg (targetPathOf cfg req.targetFile),
        (lookupFile st₁.files (targetPathOf cfg req.targetFile)).getD "") :: st₁.backups := by
  revert hne
  simp only [applyFixBody]
  repeat' split
  all_goals intro hne
  all_goals first
    | exact absurd rfl hne
    | rfl

theorem applyProposal_write_backup (cfg : Config) (req : ProposalReq) (o : Oracle)
    (st : SysState)
    (hne : (applyProposal cfg req o st).2.files ≠ st.files) :
    ∃ c, (applyProposal cfg req o st).2.backups =
        (backupPathOf cfg (targetPathOf cfg req.targetFile), c) :: st.backups ∧
      lookupFile st.files (targetPathOf cfg req.targetFile) = some c := by
  revert hne
  simp only [applyProposal]
  repeat' split
  all_goals intro hne
  all_goals try exact absurd rfl hne
  cases hl : lookupFile st.files (targetPathOf cfg req.targetFile) with
  | none =>
    exact absurd (by rw [hl]; rfl)
      ‹¬(lookupFile st.files (targetPathOf cfg req.targetFile)).isNone = true›
  | some orig =>
    refine ⟨orig, ?_, rfl⟩
    have hb := applyProposalBody_write_backup cfg req o _
      { st with locks := req.targetFile :: st.locks } hne
    rw [withFileLock_snd_backups, hb]
    rw [show lookupFile ({ st with locks := req.targetFile :: st.locks } : SysState).files
      (targetPathOf cfg req.targetFile) = some orig from hl]
    rfl

theorem applyFix_write_backup (cfg : Config) (req : FixReq) (o : Oracle)
    (st : SysState)
    (hne : (applyFix cfg req o st).2.files ≠ st.files) :
    ∃ c, (applyFix cfg req o st).2.backups =
        (backupPathOf cfg (targetPathOf cfg req.targetFile), c) :: st.backups ∧
      lookupFile st.files (targetPathOf cfg req.targetFile) = some c := by
  revert hne
  simp only [applyFix]
  repeat' split
  all_goals intro hne
  all_goals try exact absurd rfl hne
  cases hl : lookupFile st.files (targetPathOf cfg req.targetFile) with
  | none =>
    exact absurd (by rw [hl]; rfl)
      ‹¬(lookupFile st.files (targetPathOf cfg req.targetFile)).isNone = true›
  | some orig =>
    refine ⟨orig, ?_, rfl⟩
    have hb := applyFixBody_write_backup cfg req o
      { st with locks := req.targetFile :: st.locks } hne
    rw [withFileLock_snd_backups, hb]
    rw [show lookupFile ({ st with locks := req.targetFile :: st.locks } : SysState).files
      (targetPathOf cfg req.targetFile) = some orig from hl]
    rfl

/-- C1: in both orchestrated operations the destructive overwrite happens only
after `backupFile` has copied the exact pre-write content into the backups
directory: if the backup copy throws, neither operation changes any file (and
no backup entry appears); and whenever an operation has changed the disk, a
new backup holding precisely the target's pre-write content was pushed first. -/
theorem backup_precedes_write (cfg : Config) (reqP : ProposalReq) (reqF : FixReq)
    (o : Oracle) (st : SysState) :
    (o.backupOk = false →
      (applyProposal cfg reqP o st).2.files = st.files ∧
      (applyProposal cfg reqP o st).2.backups = st.backups ∧
      (applyFix cfg reqF o st).2.files = st.files ∧
      (applyFix cfg reqF o st).2.backups = st.backups) ∧
    ((applyProposal cfg reqP o st).2.files ≠ st.files →
      ∃ c, (applyProposal cfg reqP o st).2.backups =
          (backupPathOf cfg (targetPathOf cfg reqP.targetFile), c) :: st.backups ∧
        lookupFile st.files (targetPathOf cfg reqP.targetFile) = some c) ∧
    ((applyFix cfg reqF o st).2.files ≠ st.files →
      ∃ c, (applyFix cfg reqF o st).2.backups =
          (backupPathOf cfg (targetPathOf cfg reqF.targetFile), c) :: st.backups ∧
        lookupFile st.files (targetPathOf cfg reqF.targetFile) = some c) := by
  refine ⟨fun hb => ?_, applyProposal_write_backup cfg reqP o st,
    applyFix_write_backup cfg reqF o st⟩
  exact ⟨(applyProposal_nobackup cfg reqP o st hb).1,
    (applyProposal_nobackup cfg reqP o st hb).2,
    (applyFix_nobackup cfg reqF o st hb).1,
    (applyFix_nobackup cfg reqF o st hb).2⟩

theorem backup_precedes_write_witness :
    (applyProposal cfgW reqPW oracleNoBackup stW).2.files = stW.files ∧
    (applyFix cfgW reqFW oracleNoBackup stW).2.files = stW.files ∧
    (∃ c, (applyProposal cfgW reqPW oracleOk stW).2.backups =
        (backupPathOf cfgW (targetPathOf cfgW reqPW.targetFile), c) :: stW.backups ∧
      lookupFile stW.files (targetPathOf cfgW reqPW.targetFile) = some c) := by
  have h1 := (backup_precedes_write cfgW reqPW reqFW oracleNoBackup stW).1 rfl
  have h2 := (backup_precedes_write cfgW reqPW reqFW oracleOk stW).2.1 (by decide)
  exact ⟨h1.1, h1.2.2.1, h2⟩

/-- C10: two `/apply-proposal` requests that differ only in leading/trailing
whitespace of `proposedCode` (both passing the non-empty validation) behave
identically: the code is trimmed before both hashing and insertion, so they
produce the same proposal hash, the same updated content and the same final
state — the duplicate-apply guard treats them as the same proposal. -/
theorem proposal_trim_invariant (cfg : Config) (o : Oracle) (st : SysState)
    (hd tf zn c₁ c₂ it md pj : String)
    (h : strTrim c₁ = strTrim c₂) (h₁ : c₁ ≠ "") (h₂ : c₂ ≠ "") :
    applyProposal cfg ⟨hd, tf, zn, c₁, it, md, pj⟩ o st =
      applyProposal cfg ⟨hd, tf, zn, c₂, it, md, pj⟩ o st := by
  have hcond : (tf = "" ∨ zn = "" ∨ c₁ = "" ∨ it = "") = (tf = "" ∨ zn = "" ∨ c₂ = "" ∨ it = "") := by
    apply propext
    constructor <;> rintro (h' | h' | h' | h') <;>
      first
        | exact absurd h' h₁
        | exact absurd h' h₂
        | tauto
  have hbody : ∀ z : Zone, applyProposalBody cfg ⟨hd, tf, zn, c₁, it, md, pj⟩ o z =
      applyProposalBody cfg ⟨hd, tf, zn, c₂, it, md, pj⟩ o z := by
    intro z
    funext st₁
    simp only [applyProposalBody, insertAtMarker, proposalHashOf, h]
  simp only [applyProposal, hcond, hbody]

theorem proposal_trim_invariant_witness :
    applyProposal cfgW
        ⟨"token", "index.js", "routes", " console.log(1) ", "add a log line", "apply", "MLearning"⟩
        oracleOk stW =
      applyProposal cfgW
        ⟨"token", "index.js", "routes", "console.log(1)", "add a log line", "apply", "MLearning"⟩
        oracleOk stW :=
  proposal_trim_invariant cfgW oracleOk stW "token" "index.js" "routes"
    " console.log(1) " "console.log(1)" "add a log line" "apply" "MLearning"
    (by decide) (by decide) (by decide)

theorem listIndexOf_some_decomp (p : List Char) : ∀ (l : List Char) (i : Nat),
    listIndexOf p l = some i → ∃ a b, l = a ++ p ++ b ∧ a.length = i := by
  intro l
  induction l with
  | nil =>
    intro i h
    simp only [listIndexOf] at h
    cases hp : p.isPrefixOf ([] : List Char) with
    | false => rw [hp] at h; simp at h
    | true =>
      simp only [hp, if_true] at h
      simp only [Option.some.injEq] at h
      cases p with
      | nil => exact ⟨[], [], rfl, h⟩
      | cons x xs => simp [List.isPrefixOf] at hp
  | cons c t ih =>
    intro i h
    simp only [listIndexOf] at h
    by_cases hp : p.isPrefixOf (c :: t)
    · rw [if_pos hp] at h
      simp only [Option.some.injEq] at h
      obtain ⟨b, hb⟩ := List.isPrefixOf_iff_prefix.mp hp
      exact ⟨[], b, by simp [hb.symm], h⟩
    · rw [if_neg hp] at h
      obtain ⟨j, hj, hji⟩ := Option.map_eq_some'.mp h
      obtain ⟨a, b, hab, hlen⟩ := ih j hj
      refine ⟨c :: a, b, by simp [hab], ?_⟩
      simp only [List.length_cons, hlen, hji]

theorem listIndexOf_occur_isSome (p : List Char) : ∀ (a b : List Char),
    (listIndexOf p (a ++ p ++ b)).isSome = true := by
  intro a
  induction a with
  | nil =>
    intro b
    have hp : p.isPrefixOf (p ++ b) = true := List.isPrefixOf_iff_prefix.mpr ⟨b, rfl⟩
    simp only [List.nil_append]
    cases hpb : p ++ b with
    | nil => rw [hpb] at hp; simp [listIndexOf, hp]
    | cons x xs => rw [hpb] at hp; simp [listIndexOf, hp]
  | cons c a' ih =>
    intro b
    have hstep : ((c :: a') ++ p ++ b) = c :: (a' ++ p ++ b) := by simp
    rw [hstep]
    simp only [listIndexOf]
    by_cases hp : p.isPrefixOf (c :: (a' ++ p ++ b))
    · rw [if_pos hp]
      rfl
    · rw [if_neg hp]
      have ihb := ih b
      cases hx : listIndexOf p (a' ++ p ++ b) with
      | none => rw [hx] at ihb; simp at ihb
      | some j => simp [hx]

theorem marker_in_inserted (content marker code : String) (i : Nat)
    (hi : strIndexOf content marker = some i) :
    (strIndexOf (strTake content (i + marker.length) ++ "\n\n" ++ strTrim code ++ "\n\n"
      ++ strDrop content (i + marker.length)) marker).isSome = true := by
  obtain ⟨a, b, hab, hlen⟩ := listIndexOf_some_decomp marker.data content.data i hi
  have htake : content.data.take (i + marker.length) = a ++ marker.data := by
    have h1 : content.data = (a ++ marker.data) ++ b := by rw [hab, List.append_assoc]
    have h2 : i + marker.length = (a ++ marker.data).length := by
      simp only [List.length_append, hlen]
      rfl
    rw [h1, h2, List.take_left]
  show (listIndexOf marker.data
      ((((content.data.take (i + marker.length) ++ ("\n\n" : String).data)
        ++ (strTrim code).data) ++ ("\n\n" : String).data)
        ++ (strDrop content (i + marker.length)).data)).isSome = true
  rw [htake]
  have hocc := listIndexOf_occur_isSome marker.data a
    (("\n\n" : String).data ++ ((strTrim code).data ++ (("\n\n" : String).data
      ++ (strDrop content (i + marker.length)).data)))
  simpa only [List.append_assoc] using hocc

theorem lookupFile_setFile_self (fs : List (String × String)) (k v : String) :
    lookupFile (setFile fs k v) k = some v := by
  induction fs with
  | nil => simp [setFile, lookupFile, List.find?]
  | cons p t ih =>
    obtain ⟨k', v'⟩ := p
    simp only [setFile]
    by_cases hk : k' = k
    · rw [if_pos hk]
      simp [lookupFile, List.find?]
    · rw [if_neg hk]
      show (List.find? _ ((k', v') :: setFile t k v)).map _ = some v
      rw [List.find?_cons_of_neg _ (by simp [hk])]
      exact ih

theorem insertAtMarker_eq_some (content marker code : String) (i : Nat)
    (hi : strIndexOf content marker = some i) :
    insertAtMarker content marker code =
      some (strTake content (i + marker.length) ++ "\n\n" ++ strTrim code ++ "\n\n"
        ++ strDrop content (i + marker.length)) := by
  simp only [insertAtMarker, hi]

theorem applyProposal_apply_success (cfg : Config) (req : ProposalReq) (o : Oracle)
    (st : SysState) (z : Zone) (i : Nat) (orig : String)
    (htok : cfg.panelToken ≠ "")
    (hhd : req.header = cfg.panelToken)
    (hmiss : ¬(req.targetFile = "" ∨ req.zone = "" ∨ req.proposedCode = "" ∨ req.intent = ""))
    (hfile : FILE_ALLOWLIST.contains req.targetFile = true)
    (hzone : INSERTION_ZONES req.zone = some z)
    (hmode : req.mode = "apply")
    (hlook : lookupFile st.files (targetPathOf cfg req.targetFile) = some orig)
    (hidx : strIndexOf orig z.marker = some i)
    (hnew : st.patches.find? (fun r => r.patch_key == proposalHashOf cfg req) = none)
    (hdb : o.dbOk = true) (hbk : o.backupOk = true) :
    applyProposal cfg req o st =
      (.ok (.applied (proposalHashOf cfg req)
          (backupNameOf cfg (targetPathOf cfg req.targetFile))
          (backupPathOf cfg (targetPathOf cfg req.targetFile))
          (generateSemanticDiff orig
            (strTake orig (i + z.marker.length) ++ "\n\n" ++ strTrim req.proposedCode ++ "\n\n"
              ++ strDrop orig (i + z.marker.length))).length),
        { files := setFile st.files (targetPathOf cfg req.targetFile)
            (strTake orig (i + z.marker.length) ++ "\n\n" ++ strTrim req.proposedCode ++ "\n\n"
              ++ strDrop orig (i + z.marker.length)),
          backups := (backupPathOf cfg (targetPathOf cfg req.targetFile), orig) :: st.backups,
          locks := st.locks,
          patches := ⟨"panel", some req.project, req.targetFile, "proposal",
            proposalHashOf cfg req, req.intent,
            backupNameOf cfg (targetPathOf cfg req.targetFile)⟩ :: st.patches,
          proposals := ⟨"panel", req.project, req.targetFile, req.zone, req.intent,
            strTrim req.proposedCode, proposalHashOf cfg req, req.mode,
            "applied_requested"⟩ :: st.proposals,
          snapshots := ⟨req.project, req.targetFile, cfg.hash orig,
            orig.utf8ByteSize⟩ :: st.snapshots,
          attempts := st.attempts }) := by
  have hhd' : ¬(req.header = "" ∨ req.header ≠ cfg.panelToken) := by
    rw [hhd]
    push_neg
    exact ⟨htok, rfl⟩
  have hfile' : ¬((!FILE_ALLOWLIST.contains req.targetFile) = true) := by
    rw [hfile]
    decide
  have hmode' : ¬¬(req.mode = "dry-run" ∨ req.mode = "apply") :=
    not_not_intro (Or.inr hmode)
  have hlook' : ¬((lookupFile st.files (targetPathOf cfg req.targetFile)).isNone = true) := by
    rw [hlook]
    simp
  have had : ¬(("apply" : String) = "dry-run") := by decide
  have hins := insertAtMarker_eq_some orig z.marker req.proposedCode i hidx
  simp [applyProposal, applyProposalBody, withFileLock, htok, hhd', hmiss, hfile', hzone,
    hmode', hlook', hlook, hmode, had, hdb, hbk, hins, hnew, List.erase_cons_head]
  simpa using hfile

theorem applyProposal_conflict (cfg : Config) (req : ProposalReq) (o : Oracle)
    (st : SysState) (z : Zone) (orig : String) (row : PatchRow)
    (htok : cfg.panelToken ≠ "")
    (hhd : req.header = cfg.panelToken)
    (hmiss : ¬(req.targetFile = "" ∨ req.zone = "" ∨ req.proposedCode = "" ∨ req.intent = ""))
    (hfile : FILE_ALLOWLIST.contains req.targetFile = true)
    (hzone : INSERTION_ZONES req.zone = some z)
    (hmode : req.mode = "apply")
    (hlook : lookupFile st.files (targetPathOf cfg req.targetFile) = some orig)
    (hidx : (strIndexOf orig z.marker).isSome = true)
    (hdup : st.patches.find? (fun r => r.patch_key == proposalHashOf cfg req) = some row)
    (hdb : o.dbOk = true) :
    (applyProposal cfg req o st).1 = .ok (.conflict (proposalHashOf cfg req)) ∧
    (applyProposal cfg req o st).2.files = st.files ∧
    (applyProposal cfg req o st).2.backups = st.backups := by
  obtain ⟨i, hi⟩ : ∃ j, strIndexOf orig z.marker = some j := by
    cases hx : strIndexOf orig z.marker with
    | none => rw [hx] at hidx; simp at hidx
    | some j => exact ⟨j, rfl⟩
  have hhd' : ¬(req.header = "" ∨ req.header ≠ cfg.panelToken) := by
    rw [hhd]
    push_neg
    exact ⟨htok, rfl⟩
  have hfile' : ¬((!FILE_ALLOWLIST.contains req.targetFile) = true) := by
    rw [hfile]
    decide
  have hmode' : ¬¬(req.mode = "dry-run" ∨ req.mode = "apply") :=
    not_not_intro (Or.inr hmode)
  have hlook' : ¬((lookupFile st.files (targetPathOf cfg req.targetFile)).isNone = true) := by
    rw [hlook]
    simp
  have had : ¬(("apply" : String) = "dry-run") := by decide
  have hins := insertAtMarker_eq_some orig z.marker req.proposedCode i hi
  have hmem : req.targetFile ∈ FILE_ALLOWLIST := by simpa using hfile
  refine ⟨?_, ?_, ?_⟩ <;>
    simp [applyProposal, applyProposalBody, withFileLock, htok, hhd', hmiss, hfile', hzone,
      hmode', hlook', hlook, hmode, had, hdb, hins, hdup, hmem, List.erase_cons_head]

/-- C2: submitting the same proposal (same targetFile, zone, intent and
proposedCode) twice in apply mode, with the event store reachable, succeeds
the first time; the second submission finds the PatchRecord with the same
proposal hash and fails with HTTP 409 before any backup is created or any
byte of the target file is written — the second call leaves both the disk and
the backups directory exactly as the first call left them. -/
theorem duplicate_apply_conflict (cfg : Config) (req : ProposalReq) (o₁ o₂ : Oracle)
    (st : SysState) (z : Zone) (i : Nat) (orig : String)
    (htok : cfg.panelToken ≠ "")
    (hhd : req.header = cfg.panelToken)
    (hmiss : ¬(req.targetFile = "" ∨ req.zone = "" ∨ req.proposedCode = "" ∨ req.intent = ""))
    (hfile : FILE_ALLOWLIST.contains req.targetFile = true)
    (hzone : INSERTION_ZONES req.zone = some z)
    (hmode : req.mode = "apply")
    (hlook : lookupFile st.files (targetPathOf cfg req.targetFile) = some orig)
    (hidx : strIndexOf orig z.marker = some i)
    (hnew : st.patches.find? (fun r => r.patch_key == proposalHashOf cfg req) = none)
    (hdb₁ : o₁.dbOk = true) (hbk₁ : o₁.backupOk = true) (hdb₂ : o₂.dbOk = true) :
    (applyProposal cfg req o₁ st).1 =
      .ok (.applied (proposalHashOf cfg req)
        (backupNameOf cfg (targetPathOf cfg req.targetFile))
        (backupPathOf cfg (targetPathOf cfg req.targetFile))
        (generateSemanticDiff orig
          (strTake orig (i + z.marker.length) ++ "\n\n" ++ strTrim req.proposedCode ++ "\n\n"
            ++ strDrop orig (i + z.marker.length))).length) ∧
    (applyProposal cfg req o₂ (applyProposal cfg req o₁ st).2).1 =
      .ok (.conflict (proposalHashOf cfg req)) ∧
    proposalStatus (.conflict (proposalHashOf cfg req)) = 409 ∧
    (applyProposal cfg req o₂ (applyProposal cfg req o₁ st).2).2.files =
      (applyProposal cfg req o₁ st).2.files ∧
    (applyProposal cfg req o₂ (applyProposal cfg req o₁ st).2).2.backups =
      (applyProposal cfg req o₁ st).2.backups := by
  have h1 := applyProposal_apply_success cfg req o₁ st z i orig htok hhd hmiss hfile hzone
    hmode hlook hidx hnew hdb₁ hbk₁
  rw [h1]
  have hlook₂ : lookupFile (setFile st.files (targetPathOf cfg req.targetFile)
      (strTake orig (i + z.marker.length) ++ "\n\n" ++ strTrim req.proposedCode ++ "\n\n"
        ++ strDrop orig (i + z.marker.length))) (targetPathOf cfg req.targetFile) =
      some (strTake orig (i + z.marker.length) ++ "\n\n" ++ strTrim req.proposedCode ++ "\n\n"
        ++ strDrop orig (i + z.marker.length)) := lookupFile_setFile_self _ _ _
  have hidx₂ := marker_in_inserted orig z.marker req.proposedCode i hidx
  have hdup₂ : ((⟨"panel", some req.project, req.targetFile, "proposal",
      proposalHashOf cfg req, req.intent,
      backupNameOf cfg (targetPathOf cfg req.targetFile)⟩ : PatchRow) :: st.patches).find?
        (fun r => r.patch_key == proposalHashOf cfg req) =
      some ⟨"panel", some req.project, req.targetFile, "proposal",
        proposalHashOf cfg req, req.intent,
        backupNameOf cfg (targetPathOf cfg req.targetFile)⟩ := by
    rw [List.find?_cons_of_pos]
    simp
  have h2 := applyProposal_conflict cfg req o₂
    ⟨setFile st.files (targetPathOf cfg req.targetFile)
        (strTake orig (i + z.marker.length) ++ "\n\n" ++ strTrim req.proposedCode ++ "\n\n"
          ++ strDrop orig (i + z.marker.length)),
      (backupPathOf cfg (targetPathOf cfg req.targetFile), orig) :: st.backups,
      st.locks,
      ⟨"panel", some req.project, req.targetFile, "proposal", proposalHashOf cfg req,
        req.intent, backupNameOf cfg (targetPathOf cfg req.targetFile)⟩ :: st.patches,
      ⟨"panel", req.project, req.targetFile, req.zone, req.intent,
        strTrim req.proposedCode, proposalHashOf cfg req, req.mode,
        "applied_requested"⟩ :: st.proposals,
      ⟨req.project, req.targetFile, cfg.hash orig, orig.utf8ByteSize⟩ :: st.snapshots,
      st.attempts⟩
    z (strTake orig (i + z.marker.length) ++ "\n\n" ++ strTrim req.proposedCode ++ "\n\n"
      ++ strDrop orig (i + z.marker.length))
    ⟨"panel", some req.project, req.targetFile, "proposal", proposalHashOf cfg req,
      req.intent, backupNameOf cfg (targetPathOf cfg req.targetFile)⟩
    htok hhd hmiss hfile hzone hmode hlook₂ hidx₂ hdup₂ hdb₂
  exact ⟨rfl, h2.1, rfl, h2.2.1, h2.2.2⟩

theorem duplicate_apply_conflict_witness :
    (applyProposal cfgW reqPW oracleOk (applyProposal cfgW reqPW oracleOk stW).2).1 =
      .ok (.conflict (proposalHashOf cfgW reqPW)) :=
  (duplicate_apply_conflict cfgW reqPW oracleOk oracleOk stW
    ⟨routesMarker, "Safe area to insert new Express routes"⟩ 0 routesMarker
    (by decide) rfl (by decide) (by decide) (by decide) rfl (by decide) (by decide)
    rfl rfl rfl rfl).2.1
